import Mathlib

/-!
Verification of `src/walk_chain.ts`: six traversal functions over chains of
linked nodes (direct reference links and identifier links resolved through a
node collection), in call mode (sync and async) and merge mode.

Modelling choices.
* A JavaScript heap holding `n` node objects is modelled by addresses `Fin n`;
  node identity (JS reference equality, as used by `Array.prototype.includes`
  on the `visitedNodes` array) is equality of addresses.
* A direct link field is `link : Fin n → Option (Fin n)`; `none` is the field
  value `undefined`.
* In identifier mode, the link field and the identifier field hold JavaScript
  primitive values, modelled by `JSVal` (`undefined`, `null`, strings); the
  source compares them with loose equality `==` inside `nodeList.find` and
  with strict equality `=== undefined` for the early stop check.
* A callback accumulator is `Option U`: `none` is the JavaScript `undefined`
  that the first invocation receives; a merge property value is `Option V`.
* Each self-recursive `recursion` helper of the source is translated with an
  explicit fuel argument; the outer `Option` of the result is `none` exactly
  on fuel exhaustion.  The exported wrappers run with fuel `n + 1`, which is
  proved sufficient (`chainD_spec`, `chainId_spec`).
* The resolved value of a JavaScript promise is modelled by `Promise`: a
  completion delay together with the value; sequential `await` reads the
  value and is insensitive to the delay.
-/

namespace WalkChain

/-- JavaScript primitive values occurring in the link and identifier fields:
`undefined`, `null`, and strings. -/
inductive JSVal : Type where
  | undef : JSVal
  | null : JSVal
  | str : String → JSVal
deriving DecidableEq

/-- Strict comparison against `undefined` (JavaScript `x === undefined`). -/
def isUndef : JSVal → Bool
  | .undef => true
  | _ => false

/-- Test for the value `null`. -/
def isNull : JSVal → Bool
  | .null => true
  | _ => false

/-- JavaScript loose equality `==` on the modelled value forms: `undefined`
and `null` are loosely equal to each other and to themselves, strings compare
by contents, and `undefined`/`null` are never loosely equal to a string. -/
def looseEq : JSVal → JSVal → Bool
  | .undef, .undef => true
  | .undef, .null => true
  | .null, .undef => true
  | .null, .null => true
  | .str s, .str t => s == t
  | _, _ => false

/-- A settled JavaScript promise: a completion delay together with the
resolved value.  Awaiting in a strictly sequential traversal reads `val`;
the delay cannot influence the result. -/
structure Promise (α : Type) : Type where
  delay : Nat
  val : α

/-- `visitedNodes.includes(nextNode)` where `nextNode` may be `undefined`:
membership by reference equality; `undefined` is never an element of the
array of visited node objects. -/
def optIncludes {n : Nat} (visited : List (Fin n)) : Option (Fin n) → Bool
  | none => false
  | some nd => decide (nd ∈ visited)

/-- `nodeList.find(nd => nd[idName] == linkId)`: the first element of the
collection whose identifier field is loosely equal to the link value. -/
def resolveId {m : Nat} (nodeList : List (Fin m)) (idF : Fin m → JSVal)
    (linkId : JSVal) : Option (Fin m) :=
  nodeList.find? (fun nd => looseEq (idF nd) linkId)

/-! ### Direct-link traversals (`walkChainCallSync`, `walkChainCall`,
`walkChainMerge`) -/

/-- The inner `recursion` of `walkChainCallSync`, with explicit fuel. -/
def walkChainCallSyncRec {n : Nat} {U D : Type} (link : Fin n → Option (Fin n))
    (callback : Fin n → Option U → D → Option U) (data : D) :
    Nat → Fin n → Option U → List (Fin n) → Option (Option U)
  | 0, _, _, _ => none
  | fuel + 1, node, lastValue, visitedNodes =>
    -- record visited node for cyclical dependency check
    let visitedNodes' := visitedNodes ++ [node]
    let returnValue := callback node lastValue data
    let nextNode := link node
    -- has cyclical dependency, stop here
    if optIncludes visitedNodes' nextNode then some returnValue
    else
      match nextNode with
      -- linked node doesn't exist, stop here
      | none => some returnValue
      -- linked node exists, go deeper
      | some nx => walkChainCallSyncRec link callback data fuel nx returnValue visitedNodes'

/-- `walkChainCallSync({startNode, linkName, callback, data})`. -/
def walkChainCallSync {n : Nat} {U D : Type} (link : Fin n → Option (Fin n))
    (callback : Fin n → Option U → D → Option U) (data : D) (startNode : Fin n) :
    Option (Option U) :=
  walkChainCallSyncRec link callback data (n + 1) startNode none []

/-- The inner `recursion` of the asynchronous `walkChainCall`: identical to
the synchronous one except that the callback result is awaited. -/
def walkChainCallRec {n : Nat} {U D : Type} (link : Fin n → Option (Fin n))
    (callback : Fin n → Option U → D → Promise (Option U)) (data : D) :
    Nat → Fin n → Option U → List (Fin n) → Option (Option U)
  | 0, _, _, _ => none
  | fuel + 1, node, lastValue, visitedNodes =>
    let visitedNodes' := visitedNodes ++ [node]
    -- `await callback(node, lastValue, data)`
    let returnValue := (callback node lastValue data).val
    let nextNode := link node
    if optIncludes visitedNodes' nextNode then some returnValue
    else
      match nextNode with
      | none => some returnValue
      | some nx => walkChainCallRec link callback data fuel nx returnValue visitedNodes'

/-- `walkChainCall({startNode, linkName, callback, data})` (async variant). -/
def walkChainCall {n : Nat} {U D : Type} (link : Fin n → Option (Fin n))
    (callback : Fin n → Option U → D → Promise (Option U)) (data : D)
    (startNode : Fin n) : Option (Option U) :=
  walkChainCallRec link callback data (n + 1) startNode none []

/-- The inner `recursion` of `walkChainMerge`, with explicit fuel. -/
def walkChainMergeRec {n : Nat} {V : Type} (link : Fin n → Option (Fin n))
    (mergeProp : Fin n → Option V)
    (mergeFunction : Option V → Option V → Option V) :
    Nat → Fin n → List (Fin n) → Option (Option V)
  | 0, _, _ => none
  | fuel + 1, node, visitedNodes =>
    let visitedNodes' := visitedNodes ++ [node]
    -- get local data that's merged; may be undefined, check later
    let localProperty := mergeProp node
    let nextNode := link node
    -- has cyclical dependency, stop here
    if optIncludes visitedNodes' nextNode then some localProperty
    else
      match nextNode with
      -- linked node doesn't exist, stop here
      | none => some localProperty
      -- linked node exists, go deeper
      | some nx =>
        match walkChainMergeRec link mergeProp mergeFunction fuel nx visitedNodes' with
        | none => none
        | some rest =>
          -- ignore local data if undefined
          match localProperty with
          | none => some rest
          | some v => some (mergeFunction rest (some v))

/-- `walkChainMerge({startNode, linkName, mergeProperty, mergeFunction})`. -/
def walkChainMerge {n : Nat} {V : Type} (link : Fin n → Option (Fin n))
    (mergeProp : Fin n → Option V)
    (mergeFunction : Option V → Option V → Option V) (startNode : Fin n) :
    Option (Option V) :=
  walkChainMergeRec link mergeProp mergeFunction (n + 1) startNode []

/-- `walkChainMergeRec` instrumented with a ghost log of the merge-function
invocations it performs, in invocation order; each entry records the two
arguments of one call.  Same recursion as the source otherwise. -/
def walkChainMergeLogRec {n : Nat} {V : Type} (link : Fin n → Option (Fin n))
    (mergeProp : Fin n → Option V)
    (mergeFunction : Option V → Option V → Option V) :
    Nat → Fin n → List (Fin n) → Option (Option V × List (Option V × Option V))
  | 0, _, _ => none
  | fuel + 1, node, visitedNodes =>
    let visitedNodes' := visitedNodes ++ [node]
    let localProperty := mergeProp node
    let nextNode := link node
    if optIncludes visitedNodes' nextNode then some (localProperty, [])
    else
      match nextNode with
      | none => some (localProperty, [])
      | some nx =>
        match walkChainMergeLogRec link mergeProp mergeFunction fuel nx visitedNodes' with
        | none => none
        | some (rest, calls) =>
          match localProperty with
          | none => some (rest, calls)
          | some v => some (mergeFunction rest (some v), calls ++ [(rest, some v)])

/-- `walkChainMerge` with the ghost merge-call log. -/
def walkChainMergeLog {n : Nat} {V : Type} (link : Fin n → Option (Fin n))
    (mergeProp : Fin n → Option V)
    (mergeFunction : Option V → Option V → Option V) (startNode : Fin n) :
    Option (Option V × List (Option V × Option V)) :=
  walkChainMergeLogRec link mergeProp mergeFunction (n + 1) startNode []

/-- The visited-node sequence of the shared direct-link walking skeleton:
the `visitedNodes` array at the moment the walk stops. -/
def visitSeqDRec {n : Nat} (link : Fin n → Option (Fin n)) :
    Nat → Fin n → List (Fin n) → Option (List (Fin n))
  | 0, _, _ => none
  | fuel + 1, node, visitedNodes =>
    let visitedNodes' := visitedNodes ++ [node]
    let nextNode := link node
    if optIncludes visitedNodes' nextNode then some visitedNodes'
    else
      match nextNode with
      | none => some visitedNodes'
      | some nx => visitSeqDRec link fuel nx visitedNodes'

/-- The nodes a direct-link traversal from `startNode` visits, in visit
order. -/
def chainD {n : Nat} (link : Fin n → Option (Fin n)) (startNode : Fin n) :
    List (Fin n) :=
  (visitSeqDRec link (n + 1) startNode []).getD []

/-! ### Identifier-link traversals (`walkChainIdCallSync`, `walkChainIdCall`,
`walkChainIdMerge`) -/

/-- The inner `recursion` of `walkChainIdCallSync`, with explicit fuel. -/
def walkChainIdCallSyncRec {m : Nat} {U D : Type} (linkF idF : Fin m → JSVal)
    (nodeList : List (Fin m)) (callback : Fin m → Option U → D → Option U)
    (data : D) : Nat → Fin m → Option U → List (Fin m) → Option (Option U)
  | 0, _, _, _ => none
  | fuel + 1, node, lastValue, visitedNodes =>
    let visitedNodes' := visitedNodes ++ [node]
    let returnValue := callback node lastValue data
    -- node doesn't have linked node, stop here
    -- (otherwise find() will return the next node without an idName)
    let linkId := linkF node
    if isUndef linkId then some returnValue
    else
      -- can choose first match because value of idName of nodes in nodeList is unique
      let nextNode := resolveId nodeList idF linkId
      -- has cyclical dependency, stop here
      if optIncludes visitedNodes' nextNode then some returnValue
      else
        match nextNode with
        -- linked node doesn't exist, stop here
        | none => some returnValue
        -- linked node exists, go deeper
        | some nx =>
          walkChainIdCallSyncRec linkF idF nodeList callback data fuel nx returnValue
            visitedNodes'

/-- `walkChainIdCallSync({startNode, nodeList, linkName, idName, callback, data})`. -/
def walkChainIdCallSync {m : Nat} {U D : Type} (linkF idF : Fin m → JSVal)
    (nodeList : List (Fin m)) (callback : Fin m → Option U → D → Option U)
    (data : D) (startNode : Fin m) : Option (Option U) :=
  walkChainIdCallSyncRec linkF idF nodeList callback data (m + 1) startNode none []

/-- `walkChainIdCallSyncRec` instrumented with a ghost log of the collection
searches it performs: one entry per executed `nodeList.find`, recording the
link value searched for.  Same recursion as the source otherwise. -/
def walkChainIdCallSyncSearchRec {m : Nat} {U D : Type} (linkF idF : Fin m → JSVal)
    (nodeList : List (Fin m)) (callback : Fin m → Option U → D → Option U)
    (data : D) : Nat → Fin m → Option U → List (Fin m) →
    Option (Option U × List JSVal)
  | 0, _, _, _ => none
  | fuel + 1, node, lastValue, visitedNodes =>
    let visitedNodes' := visitedNodes ++ [node]
    let returnValue := callback node lastValue data
    let linkId := linkF node
    if isUndef linkId then some (returnValue, [])
    else
      let nextNode := resolveId nodeList idF linkId
      if optIncludes visitedNodes' nextNode then some (returnValue, [linkId])
      else
        match nextNode with
        | none => some (returnValue, [linkId])
        | some nx =>
          match walkChainIdCallSyncSearchRec linkF idF nodeList callback data fuel nx
              returnValue visitedNodes' with
          | none => none
          | some (r, searches) => some (r, linkId :: searches)

/-- `walkChainIdCallSync` with the ghost search log. -/
def walkChainIdCallSyncSearch {m : Nat} {U D : Type} (linkF idF : Fin m → JSVal)
    (nodeList : List (Fin m)) (callback : Fin m → Option U → D → Option U)
    (data : D) (startNode : Fin m) : Option (Option U × List JSVal) :=
  walkChainIdCallSyncSearchRec linkF idF nodeList callback data (m + 1) startNode none []

/-- The inner `recursion` of the asynchronous `walkChainIdCall`. -/
def walkChainIdCallRec {m : Nat} {U D : Type} (linkF idF : Fin m → JSVal)
    (nodeList : List (Fin m))
    (callback : Fin m → Option U → D → Promise (Option U)) (data : D) :
    Nat → Fin m → Option U → List (Fin m) → Option (Option U)
  | 0, _, _, _ => none
  | fuel + 1, node, lastValue, visitedNodes =>
    let visitedNodes' := visitedNodes ++ [node]
    -- `await callback(node, lastValue, data)`
    let returnValue := (callback node lastValue data).val
    let linkId := linkF node
    if isUndef linkId then some returnValue
    else
      let nextNode := resolveId nodeList idF linkId
      if optIncludes visitedNodes' nextNode then some returnValue
      else
        match nextNode with
        | none => some returnValue
        | some nx =>
          walkChainIdCallRec linkF idF nodeList callback data fuel nx returnValue
            visitedNodes'

/-- `walkChainIdCall({startNode, nodeList, linkName, idName, callback, data})`
(async variant). -/
def walkChainIdCall {m : Nat} {U D : Type} (linkF idF : Fin m → JSVal)
    (nodeList : List (Fin m))
    (callback : Fin m → Option U → D → Promise (Option U)) (data : D)
    (startNode : Fin m) : Option (Option U) :=
  walkChainIdCallRec linkF idF nodeList callback data (m + 1) startNode none []

/-- The inner `recursion` of `walkChainIdMerge`, with explicit fuel. -/
def walkChainIdMergeRec {m : Nat} {V : Type} (linkF idF : Fin m → JSVal)
    (nodeList : List (Fin m)) (mergeProp : Fin m → Option V)
    (mergeFunction : Option V → Option V → Option V) :
    Nat → Fin m → List (Fin m) → Option (Option V)
  | 0, _, _ => none
  | fuel + 1, node, visitedNodes =>
    let visitedNodes' := visitedNodes ++ [node]
    let localProperty := mergeProp node
    -- node doesn't have linked node, stop here
    let linkId := linkF node
    if isUndef linkId then some localProperty
    else
      let nextNode := resolveId nodeList idF linkId
      -- has cyclical dependency, stop here
      if optIncludes visitedNodes' nextNode then some localProperty
      else
        match nextNode with
        -- linked node doesn't exist, stop here
        | none => some localProperty
        -- linked node exists, go deeper
        | some nx =>
          match walkChainIdMergeRec linkF idF nodeList mergeProp mergeFunction fuel nx
              visitedNodes' with
          | none => none
          | some rest =>
            -- ignore local data if undefined
            match localProperty with
            | none => some rest
            | some v => some (mergeFunction rest (some v))

/-- `walkChainIdMerge({startNode, nodeList, linkName, idName, mergeProperty,
mergeFunction})`. -/
def walkChainIdMerge {m : Nat} {V : Type} (linkF idF : Fin m → JSVal)
    (nodeList : List (Fin m)) (mergeProp : Fin m → Option V)
    (mergeFunction : Option V → Option V → Option V) (startNode : Fin m) :
    Option (Option V) :=
  walkChainIdMergeRec linkF idF nodeList mergeProp mergeFunction (m + 1) startNode []

/-- `walkChainIdMergeRec` instrumented with ghost logs of the merge-function
invocations (second component) and of the collection searches (third
component).  Same recursion as the source otherwise. -/
def walkChainIdMergeLogRec {m : Nat} {V : Type} (linkF idF : Fin m → JSVal)
    (nodeList : List (Fin m)) (mergeProp : Fin m → Option V)
    (mergeFunction : Option V → Option V → Option V) :
    Nat → Fin m → List (Fin m) →
    Option (Option V × List (Option V × Option V) × List JSVal)
  | 0, _, _ => none
  | fuel + 1, node, visitedNodes =>
    let visitedNodes' := visitedNodes ++ [node]
    let localProperty := mergeProp node
    let linkId := linkF node
    if isUndef linkId then some (localProperty, [], [])
    else
      let nextNode := resolveId nodeList idF linkId
      if optIncludes visitedNodes' nextNode then some (localProperty, [], [linkId])
      else
        match nextNode with
        | none => some (localProperty, [], [linkId])
        | some nx =>
          match walkChainIdMergeLogRec linkF idF nodeList mergeProp mergeFunction fuel nx
              visitedNodes' with
          | none => none
          | some (rest, calls, searches) =>
            match localProperty with
            | none => some (rest, calls, linkId :: searches)
            | some v =>
              some (mergeFunction rest (some v), calls ++ [(rest, some v)],
                linkId :: searches)

/-- `walkChainIdMerge` with the ghost merge-call and search logs. -/
def walkChainIdMergeLog {m : Nat} {V : Type} (linkF idF : Fin m → JSVal)
    (nodeList : List (Fin m)) (mergeProp : Fin m → Option V)
    (mergeFunction : Option V → Option V → Option V) (startNode : Fin m) :
    Option (Option V × List (Option V × Option V) × List JSVal) :=
  walkChainIdMergeLogRec linkF idF nodeList mergeProp mergeFunction (m + 1) startNode []

/-- The visited-node sequence of the identifier-link walking skeleton. -/
def visitSeqIdRec {m : Nat} (linkF idF : Fin m → JSVal) (nodeList : List (Fin m)) :
    Nat → Fin m → List (Fin m) → Option (List (Fin m))
  | 0, _, _ => none
  | fuel + 1, node, visitedNodes =>
    let visitedNodes' := visitedNodes ++ [node]
    let linkId := linkF node
    if isUndef linkId then some visitedNodes'
    else
      let nextNode := resolveId nodeList idF linkId
      if optIncludes visitedNodes' nextNode then some visitedNodes'
      else
        match nextNode with
        | none => some visitedNodes'
        | some nx => visitSeqIdRec linkF idF nodeList fuel nx visitedNodes'

/-- The nodes an identifier-link traversal from `startNode` visits, in visit
order. -/
def chainId {m : Nat} (linkF idF : Fin m → JSVal) (nodeList : List (Fin m))
    (startNode : Fin m) : List (Fin m) :=
  (visitSeqIdRec linkF idF nodeList (m + 1) startNode []).getD []

/-! ### Specification-side combinators -/

/-- Combining a list of per-node merge-property values, nearest node first:
the value for the last node is its own local value; a `none` local value is
skipped; otherwise the combined value of the farther nodes is merged with the
local value, farther first. -/
def mergeLocals {V : Type} (mergeFunction : Option V → Option V → Option V) :
    List (Option V) → Option V
  | [] => none
  | [l] => l
  | l :: l2 :: ls =>
    match l with
    | none => mergeLocals mergeFunction (l2 :: ls)
    | some v => mergeFunction (mergeLocals mergeFunction (l2 :: ls)) (some v)

/-- `mergeLocals` together with the list of merge-function invocations it
makes, in invocation order (farthest first). -/
def mergeLocalsLog {V : Type} (mergeFunction : Option V → Option V → Option V) :
    List (Option V) → Option V × List (Option V × Option V)
  | [] => (none, [])
  | [l] => (l, [])
  | l :: l2 :: ls =>
    let rl := mergeLocalsLog mergeFunction (l2 :: ls)
    match l with
    | none => rl
    | some v => (mergeFunction rl.1 (some v), rl.2 ++ [(rl.1, some v)])

/-! ### Concrete instances used by the examples in the claims -/

/-- Three-node chain `A → B → C`: node 0 links to 1, 1 links to 2, 2 is
terminal. -/
def exLink : Fin 3 → Option (Fin 3) := fun i =>
  if i = 0 then some 1 else if i = 1 then some 2 else none

/-- Node ids `"a"`, `"b"`, `"c"`. -/
def exIds : Fin 3 → String := fun i =>
  if i = 0 then "a" else if i = 1 then "b" else "c"

/-- The callback `(node, acc) => acc === undefined ? node.id : acc + node.id`. -/
def exCallback : Fin 3 → Option String → Unit → Option String := fun nd acc _ =>
  match acc with
  | none => some (exIds nd)
  | some s => some (s ++ exIds nd)

/-- Shallow object override, modelling the JavaScript spread
`{...farther, ...nearer}` on objects represented as association lists: keys of
`farther` first (where both have the key, the value from `nearer` wins), then the keys
only `nearer` has. -/
def objOverride (farther nearer : List (String × Int)) : List (String × Int) :=
  farther.map (fun p => (p.1, (nearer.lookup p.1).getD p.2)) ++
    nearer.filter (fun q => (farther.lookup q.1).isNone)

/-- A shallow-object-override merge function; an `undefined` argument
contributes no keys, like spreading `undefined`. -/
def objMergeF : Option (List (String × Int)) → Option (List (String × Int)) →
    Option (List (String × Int)) := fun fa ne =>
  some (objOverride (fa.getD []) (ne.getD []))

/-- Property values `A:{x:1}`, `B:{y:2}`, `C:{x:3,z:4}`. -/
def exProps : Fin 3 → Option (List (String × Int)) := fun i =>
  if i = 0 then some [("x", 1)]
  else if i = 1 then some [("y", 2)]
  else some [("x", 3), ("z", 4)]

/-- Same chain of property values but the property of `B` is `undefined`. -/
def exPropsB : Fin 3 → Option (List (String × Int)) := fun i =>
  if i = 0 then some [("x", 1)]
  else if i = 1 then none
  else some [("x", 3), ("z", 4)]

/-- Two-node cycle: node 0 links to 1 and node 1 links back to 0. -/
def cycLink : Fin 2 → Option (Fin 2) := fun i => if i = 0 then some 1 else some 0

/-- Ids `"a"`, `"b"` for the two-node examples. -/
def cycIds : Fin 2 → String := fun i => if i = 0 then "a" else "b"

/-- The accumulating callback of the claims on the two-node examples. -/
def cycCallback : Fin 2 → Option String → Unit → Option String := fun nd acc _ =>
  match acc with
  | none => some (cycIds nd)
  | some s => some (s ++ cycIds nd)

/-- Ids `"a"`, `"b"` as identifier-field values for the two-node cycle in
identifier mode: node 0 links to id `"b"`, node 1 links back to id `"a"`. -/
def cycLinkF : Fin 2 → JSVal := fun i =>
  if i = 0 then JSVal.str "b" else JSVal.str "a"

/-- Identifier fields of the two-node identifier-mode cycle. -/
def cycIdF : Fin 2 → JSVal := fun i =>
  if i = 0 then JSVal.str "a" else JSVal.str "b"

/-- Property values for the merge traversal on the two-node cycle. -/
def cycProps : Fin 2 → Option (List (String × Int)) := fun i =>
  if i = 0 then some [("x", 1)] else some [("y", 2)]

/-- Single terminal node: the link field is `undefined`. -/
def termLink : Fin 1 → Option (Fin 1) := fun _ => none

/-- Two-node chain `A → B`, `B` terminal. -/
def pairLink : Fin 2 → Option (Fin 2) := fun i => if i = 0 then some 1 else none

/-- The property of `A` is present, that of terminal `B` is `undefined`. -/
def pairProp : Fin 2 → Option (List (String × Int)) := fun i =>
  if i = 0 then some [("x", 1)] else none

/-- Identifier fields with a duplicate: nodes 1 and 2 both have id `"p"`. -/
def dupIdF : Fin 3 → JSVal := fun i =>
  if i = 0 then JSVal.str "s" else JSVal.str "p"

/-- Node 0 links to id `"p"` (matched by both 1 and 2); 1 and 2 terminal. -/
def dupLinkF : Fin 3 → JSVal := fun i =>
  if i = 0 then JSVal.str "p" else JSVal.undef

/-- The collection for the duplicate-identifier example, in order. -/
def dupList : List (Fin 3) := [0, 1, 2]

/-- Node 0 has link value `null` (not `undefined`); node 1 is terminal. -/
def nullLinkF : Fin 2 → JSVal := fun i =>
  if i = 0 then JSVal.null else JSVal.undef

/-- Node 1's identifier field is absent (`undefined`). -/
def nullIdF : Fin 2 → JSVal := fun i =>
  if i = 0 then JSVal.str "s" else JSVal.undef

/-- Both nodes have `undefined` link fields; node 1's identifier field is
also absent. -/
def undefLinkF : Fin 2 → JSVal := fun _ => JSVal.undef

/-- Identifier fields for the undefined-link example: node 1's id is absent. -/
def undefIdF : Fin 2 → JSVal := fun i =>
  if i = 0 then JSVal.str "s" else JSVal.undef

/-- The accumulating callback, delivered as already-settled promises with
uniform delays. -/
def asyncCb1 : Fin 3 → Option String → Unit → Promise (Option String) :=
  fun nd acc d => ⟨0, exCallback nd acc d⟩

/-- The same resolved values with staggered delays: the callback at node 2
(`C`) completes faster than the one at node 1 (`B`). -/
def asyncCb2 : Fin 3 → Option String → Unit → Promise (Option String) :=
  fun nd acc d => ⟨if nd = 2 then 0 else 5, exCallback nd acc d⟩

example : walkChainCallSync exLink exCallback () 0 = some (some "abc") := by rfl

example : chainD cycLink 0 = [0, 1] := by rfl

example :
    walkChainMerge exLink exProps objMergeF 0 =
      some (some [("x", 1), ("z", 4), ("y", 2)]) := by rfl

/-! ### Lemmas on the direct-link visit sequence -/

theorem not_optIncludes_mem {n : Nat} {vs : List (Fin n)} {o : Option (Fin n)}
    {nd : Fin n} (h : ¬ optIncludes vs o = true) (ho : o = some nd) : nd ∉ vs := by
  subst ho
  simp only [optIncludes, decide_eq_true_eq] at h
  exact h

theorem nodup_snoc {α : Type} {l : List α} {a : α} (h : l.Nodup) (ha : a ∉ l) :
    (l ++ [a]).Nodup :=
  List.Nodup.append h (List.nodup_singleton a)
    (fun x hx hxa => by simp only [List.mem_singleton] at hxa; exact ha (hxa ▸ hx))

theorem visitSeqDRec_append {n : Nat} (link : Fin n → Option (Fin n)) :
    ∀ (fuel : Nat) (node : Fin n) (visited vsf : List (Fin n)),
      visitSeqDRec link fuel node visited = some vsf →
      ∃ t, vsf = (visited ++ [node]) ++ t := by
  intro fuel
  induction fuel with
  | zero => intro node visited vsf h; simp [visitSeqDRec] at h
  | succ fuel ih =>
    intro node visited vsf h
    simp only [visitSeqDRec] at h
    split at h
    · exact ⟨[], by simp [← Option.some_inj.mp h]⟩
    · split at h
      · exact ⟨[], by simp [← Option.some_inj.mp h]⟩
      · rename_i nx heq
        obtain ⟨t, ht⟩ := ih _ _ _ h
        exact ⟨nx :: t, by simp [ht]⟩

theorem visitSeqDRec_nodup {n : Nat} (link : Fin n → Option (Fin n)) :
    ∀ (fuel : Nat) (node : Fin n) (visited vsf : List (Fin n)),
      visitSeqDRec link fuel node visited = some vsf →
      (visited ++ [node]).Nodup → vsf.Nodup := by
  intro fuel
  induction fuel with
  | zero => intro node visited vsf h; simp [visitSeqDRec] at h
  | succ fuel ih =>
    intro node visited vsf h hnd
    simp only [visitSeqDRec] at h
    split at h
    · rw [← Option.some_inj.mp h]; exact hnd
    · rename_i hinc
      split at h
      · rw [← Option.some_inj.mp h]; exact hnd
      · rename_i nx heq
        exact ih _ _ _ h (nodup_snoc hnd (not_optIncludes_mem hinc heq))

theorem visitSeqDRec_isSome {n : Nat} (link : Fin n → Option (Fin n)) :
    ∀ (fuel : Nat) (node : Fin n) (visited : List (Fin n)),
      (visited ++ [node]).Nodup → n - visited.length ≤ fuel →
      ∃ vsf, visitSeqDRec link fuel node visited = some vsf := by
  intro fuel
  induction fuel with
  | zero =>
    intro node visited hnd hle
    exfalso
    have hcard : (visited ++ [node]).length ≤ Fintype.card (Fin n) :=
      List.Nodup.length_le_card hnd
    simp only [List.length_append, List.length_singleton, Fintype.card_fin] at hcard
    omega
  | succ fuel ih =>
    intro node visited hnd hle
    simp only [visitSeqDRec]
    by_cases hc : optIncludes (visited ++ [node]) (link node) = true
    · rw [if_pos hc]; exact ⟨_, rfl⟩
    · rw [if_neg hc]
      split
      · exact ⟨_, rfl⟩
      · rename_i nx heq
        refine ih nx (visited ++ [node]) (nodup_snoc hnd (not_optIncludes_mem hc heq)) ?_
        simp only [List.length_append, List.length_singleton]
        omega

theorem visitSeqDRec_stable {n : Nat} (link : Fin n → Option (Fin n)) :
    ∀ (fuel : Nat) (node : Fin n) (visited vsf : List (Fin n)),
      visitSeqDRec link fuel node visited = some vsf →
      ∀ fuel', vsf.length - visited.length ≤ fuel' →
        visitSeqDRec link fuel' node visited = some vsf := by
  intro fuel
  induction fuel with
  | zero => intro node visited vsf h; simp [visitSeqDRec] at h
  | succ fuel ih =>
    intro node visited vsf h fuel' hle
    obtain ⟨f, rfl⟩ : ∃ f, fuel' = f + 1 := by
      obtain ⟨t, ht⟩ := visitSeqDRec_append link _ _ _ _ h
      subst ht
      simp only [List.length_append, List.length_singleton] at hle
      cases fuel' with
      | zero => omega
      | succ f => exact ⟨f, rfl⟩
    simp only [visitSeqDRec] at h ⊢
    by_cases hc : optIncludes (visited ++ [node]) (link node) = true
    · rw [if_pos hc] at h ⊢; exact h
    · rw [if_neg hc] at h ⊢
      cases heq : link node with
      | none => simp only [heq] at h ⊢; exact h
      | some nx =>
        simp only [heq] at h ⊢
        refine ih _ _ _ h f ?_
        obtain ⟨t, ht⟩ := visitSeqDRec_append link _ _ _ _ h
        subst ht
        simp only [List.length_append, List.length_singleton] at hle ⊢
        omega

theorem drop_append_cons {α : Type} (visited : List α) (node : α) (t : List α) :
    ((visited ++ [node]) ++ t).drop visited.length = node :: t := by
  rw [List.append_assoc, List.drop_left]
  rfl

/-- The synchronous direct-link call walker folds the callback over the tail
of the final visited-node sequence. -/
theorem walkChainCallSyncRec_eq {n : Nat} {U D : Type} (link : Fin n → Option (Fin n))
    (callback : Fin n → Option U → D → Option U) (data : D) :
    ∀ (fuel : Nat) (node : Fin n) (acc : Option U) (visited vsf : List (Fin n)),
      visitSeqDRec link fuel node visited = some vsf →
      walkChainCallSyncRec link callback data fuel node acc visited =
        some ((vsf.drop visited.length).foldl (fun a nd => callback nd a data) acc) := by
  intro fuel
  induction fuel with
  | zero => intro node acc visited vsf h; simp [visitSeqDRec] at h
  | succ fuel ih =>
    intro node acc visited vsf h
    simp only [visitSeqDRec] at h
    simp only [walkChainCallSyncRec]
    by_cases hc : optIncludes (visited ++ [node]) (link node) = true
    · rw [if_pos hc] at h ⊢
      have hv : vsf = (visited ++ [node]) ++ [] := by simp [← Option.some_inj.mp h]
      rw [hv, drop_append_cons]
      rfl
    · rw [if_neg hc] at h ⊢
      cases heq : link node with
      | none =>
        simp only [heq] at h ⊢
        have hv : vsf = (visited ++ [node]) ++ [] := by simp [← Option.some_inj.mp h]
        rw [hv, drop_append_cons]
        rfl
      | some nx =>
        simp only [heq] at h ⊢
        rw [ih _ _ _ _ h]
        obtain ⟨t, ht⟩ := visitSeqDRec_append link _ _ _ _ h
        subst ht
        have e2 : ((visited ++ [node]) ++ [nx]) ++ t = (visited ++ [node]) ++ (nx :: t) := by
          simp
        rw [e2, List.drop_left, drop_append_cons]
        rfl

/-- Awaiting a settled promise at each step, the asynchronous walker computes
exactly what the synchronous walker computes on the resolved values. -/
theorem walkChainCallRec_eq_sync {n : Nat} {U D : Type} (link : Fin n → Option (Fin n))
    (callback : Fin n → Option U → D → Promise (Option U)) (data : D) :
    ∀ (fuel : Nat) (node : Fin n) (acc : Option U) (visited : List (Fin n)),
      walkChainCallRec link callback data fuel node acc visited =
        walkChainCallSyncRec link (fun nd a d => (callback nd a d).val) data fuel node
          acc visited := by
  intro fuel
  induction fuel with
  | zero => intro node acc visited; rfl
  | succ fuel ih =>
    intro node acc visited
    simp only [walkChainCallRec, walkChainCallSyncRec]
    by_cases hc : optIncludes (visited ++ [node]) (link node) = true
    · rw [if_pos hc, if_pos hc]
    · rw [if_neg hc, if_neg hc]
      cases heq : link node with
      | none => simp only [heq]
      | some nx => simp only [heq]; exact ih _ _ _

/-- The merge walker with ghost log computes `mergeLocalsLog` of the local
property values along the tail of the final visited-node sequence. -/
theorem walkChainMergeLogRec_eq {n : Nat} {V : Type} (link : Fin n → Option (Fin n))
    (mergeProp : Fin n → Option V)
    (mergeFunction : Option V → Option V → Option V) :
    ∀ (fuel : Nat) (node : Fin n) (visited vsf : List (Fin n)),
      visitSeqDRec link fuel node visited = some vsf →
      walkChainMergeLogRec link mergeProp mergeFunction fuel node visited =
        some (mergeLocalsLog mergeFunction ((vsf.drop visited.length).map mergeProp)) := by
  intro fuel
  induction fuel with
  | zero => intro node visited vsf h; simp [visitSeqDRec] at h
  | succ fuel ih =>
    intro node visited vsf h
    simp only [visitSeqDRec] at h
    simp only [walkChainMergeLogRec]
    by_cases hc : optIncludes (visited ++ [node]) (link node) = true
    · rw [if_pos hc] at h ⊢
      have hv : vsf = (visited ++ [node]) ++ [] := by simp [← Option.some_inj.mp h]
      rw [hv, drop_append_cons]
      rfl
    · rw [if_neg hc] at h ⊢
      cases heq : link node with
      | none =>
        simp only [heq] at h ⊢
        have hv : vsf = (visited ++ [node]) ++ [] := by simp [← Option.some_inj.mp h]
        rw [hv, drop_append_cons]
        rfl
      | some nx =>
        simp only [heq] at h ⊢
        rw [ih _ _ _ h]
        obtain ⟨t, ht⟩ := visitSeqDRec_append link _ _ _ _ h
        subst ht
        have e2 : ((visited ++ [node]) ++ [nx]) ++ t = (visited ++ [node]) ++ (nx :: t) := by
          simp
        rw [e2, List.drop_left, drop_append_cons]
        cases hml : mergeLocalsLog mergeFunction (mergeProp nx :: t.map mergeProp) with
        | mk rest calls =>
          cases hmp : mergeProp node <;>
            simp [mergeLocalsLog, List.map_cons, hml, hmp]

/-- The plain merge walker is the first projection of the instrumented one. -/
theorem walkChainMergeRec_eq_log {n : Nat} {V : Type} (link : Fin n → Option (Fin n))
    (mergeProp : Fin n → Option V)
    (mergeFunction : Option V → Option V → Option V) :
    ∀ (fuel : Nat) (node : Fin n) (visited : List (Fin n)),
      walkChainMergeRec link mergeProp mergeFunction fuel node visited =
        (walkChainMergeLogRec link mergeProp mergeFunction fuel node visited).map
          Prod.fst := by
  intro fuel
  induction fuel with
  | zero => intro node visited; rfl
  | succ fuel ih =>
    intro node visited
    simp only [walkChainMergeRec, walkChainMergeLogRec]
    by_cases hc : optIncludes (visited ++ [node]) (link node) = true
    · rw [if_pos hc, if_pos hc]; rfl
    · rw [if_neg hc, if_neg hc]
      cases heq : link node with
      | none => simp only [heq]; rfl
      | some nx =>
        simp only [heq]
        rw [ih]
        cases hrec : walkChainMergeLogRec link mergeProp mergeFunction fuel nx
            (visited ++ [node]) with
        | none => rfl
        | some rc =>
          cases rc with
          | mk rest calls =>
            cases hmp : mergeProp node <;> simp [hmp]

/-- With the wrapper fuel `n + 1`, the visit sequence is defined and equal to
`chainD`. -/
theorem chainD_spec {n : Nat} (link : Fin n → Option (Fin n)) (startNode : Fin n) :
    visitSeqDRec link (n + 1) startNode [] = some (chainD link startNode) := by
  obtain ⟨vsf, h⟩ := visitSeqDRec_isSome link (n + 1) startNode []
    (by simp) (by simp)
  rw [chainD, h]
  rfl

theorem chainD_cons {n : Nat} (link : Fin n → Option (Fin n)) (startNode : Fin n) :
    ∃ t, chainD link startNode = startNode :: t := by
  obtain ⟨t, ht⟩ := visitSeqDRec_append link _ _ _ _ (chainD_spec link startNode)
  exact ⟨t, by simpa using ht⟩

theorem chainD_nodup {n : Nat} (link : Fin n → Option (Fin n)) (startNode : Fin n) :
    (chainD link startNode).Nodup :=
  visitSeqDRec_nodup link _ _ _ _ (chainD_spec link startNode) (by simp)

/-! ### Lemmas on the identifier-link visit sequence -/

theorem visitSeqIdRec_append {m : Nat} (linkF idF : Fin m → JSVal)
    (nodeList : List (Fin m)) :
    ∀ (fuel : Nat) (node : Fin m) (visited vsf : List (Fin m)),
      visitSeqIdRec linkF idF nodeList fuel node visited = some vsf →
      ∃ t, vsf = (visited ++ [node]) ++ t := by
  intro fuel
  induction fuel with
  | zero => intro node visited vsf h; simp [visitSeqIdRec] at h
  | succ fuel ih =>
    intro node visited vsf h
    simp only [visitSeqIdRec] at h
    split at h
    · exact ⟨[], by simp [← Option.some_inj.mp h]⟩
    · split at h
      · exact ⟨[], by simp [← Option.some_inj.mp h]⟩
      · split at h
        · exact ⟨[], by simp [← Option.some_inj.mp h]⟩
        · rename_i nx heq
          obtain ⟨t, ht⟩ := ih _ _ _ h
          exact ⟨nx :: t, by simp [ht]⟩

theorem visitSeqIdRec_nodup {m : Nat} (linkF idF : Fin m → JSVal)
    (nodeList : List (Fin m)) :
    ∀ (fuel : Nat) (node : Fin m) (visited vsf : List (Fin m)),
      visitSeqIdRec linkF idF nodeList fuel node visited = some vsf →
      (visited ++ [node]).Nodup → vsf.Nodup := by
  intro fuel
  induction fuel with
  | zero => intro node visited vsf h; simp [visitSeqIdRec] at h
  | succ fuel ih =>
    intro node visited vsf h hnd
    simp only [visitSeqIdRec] at h
    split at h
    · rw [← Option.some_inj.mp h]; exact hnd
    · split at h
      · rw [← Option.some_inj.mp h]; exact hnd
      · rename_i hinc
        split at h
        · rw [← Option.some_inj.mp h]; exact hnd
        · rename_i nx heq
          exact ih _ _ _ h (nodup_snoc hnd (not_optIncludes_mem hinc heq))

theorem visitSeqIdRec_isSome {m : Nat} (linkF idF : Fin m → JSVal)
    (nodeList : List (Fin m)) :
    ∀ (fuel : Nat) (node : Fin m) (visited : List (Fin m)),
      (visited ++ [node]).Nodup → m - visited.length ≤ fuel →
      ∃ vsf, visitSeqIdRec linkF idF nodeList fuel node visited = some vsf := by
  intro fuel
  induction fuel with
  | zero =>
    intro node visited hnd hle
    exfalso
    have hcard : (visited ++ [node]).length ≤ Fintype.card (Fin m) :=
      List.Nodup.length_le_card hnd
    simp only [List.length_append, List.length_singleton, Fintype.card_fin] at hcard
    omega
  | succ fuel ih =>
    intro node visited hnd hle
    simp only [visitSeqIdRec]
    by_cases hu : isUndef (linkF node) = true
    · rw [if_pos hu]; exact ⟨_, rfl⟩
    · rw [if_neg hu]
      by_cases hc :
          optIncludes (visited ++ [node]) (resolveId nodeList idF (linkF node)) = true
      · rw [if_pos hc]; exact ⟨_, rfl⟩
      · rw [if_neg hc]
        split
        · exact ⟨_, rfl⟩
        · rename_i nx heq
          refine ih nx (visited ++ [node])
            (nodup_snoc hnd (not_optIncludes_mem hc heq)) ?_
          simp only [List.length_append, List.length_singleton]
          omega

theorem visitSeqIdRec_stable {m : Nat} (linkF idF : Fin m → JSVal)
    (nodeList : List (Fin m)) :
    ∀ (fuel : Nat) (node : Fin m) (visited vsf : List (Fin m)),
      visitSeqIdRec linkF idF nodeList fuel node visited = some vsf →
      ∀ fuel', vsf.length - visited.length ≤ fuel' →
        visitSeqIdRec linkF idF nodeList fuel' node visited = some vsf := by
  intro fuel
  induction fuel with
  | zero => intro node visited vsf h; simp [visitSeqIdRec] at h
  | succ fuel ih =>
    intro node visited vsf h fuel' hle
    obtain ⟨f, rfl⟩ : ∃ f, fuel' = f + 1 := by
      obtain ⟨t, ht⟩ := visitSeqIdRec_append linkF idF nodeList _ _ _ _ h
      subst ht
      simp only [List.length_append, List.length_singleton] at hle
      cases fuel' with
      | zero => omega
      | succ f => exact ⟨f, rfl⟩
    simp only [visitSeqIdRec] at h ⊢
    by_cases hu : isUndef (linkF node) = true
    · rw [if_pos hu] at h ⊢; exact h
    · rw [if_neg hu] at h ⊢
      by_cases hc :
          optIncludes (visited ++ [node]) (resolveId nodeList idF (linkF node)) = true
      · rw [if_pos hc] at h ⊢; exact h
      · rw [if_neg hc] at h ⊢
        cases heq : resolveId nodeList idF (linkF node) with
        | none => simp only [heq] at h ⊢; exact h
        | some nx =>
          simp only [heq] at h ⊢
          refine ih _ _ _ h f ?_
          obtain ⟨t, ht⟩ := visitSeqIdRec_append linkF idF nodeList _ _ _ _ h
          subst ht
          simp only [List.length_append, List.length_singleton] at hle ⊢
          omega

/-- With the wrapper fuel `m + 1`, the identifier-mode visit sequence is
defined and equal to `chainId`. -/
theorem chainId_spec {m : Nat} (linkF idF : Fin m → JSVal) (nodeList : List (Fin m))
    (startNode : Fin m) :
    visitSeqIdRec linkF idF nodeList (m + 1) startNode [] =
      some (chainId linkF idF nodeList startNode) := by
  obtain ⟨vsf, h⟩ := visitSeqIdRec_isSome linkF idF nodeList (m + 1) startNode []
    (by simp) (by simp)
  rw [chainId, h]
  rfl

theorem chainId_cons {m : Nat} (linkF idF : Fin m → JSVal) (nodeList : List (Fin m))
    (startNode : Fin m) :
    ∃ t, chainId linkF idF nodeList startNode = startNode :: t := by
  obtain ⟨t, ht⟩ := visitSeqIdRec_append linkF idF nodeList _ _ _ _
    (chainId_spec linkF idF nodeList startNode)
  exact ⟨t, by simpa using ht⟩

theorem chainId_nodup {m : Nat} (linkF idF : Fin m → JSVal) (nodeList : List (Fin m))
    (startNode : Fin m) : (chainId linkF idF nodeList startNode).Nodup :=
  visitSeqIdRec_nodup linkF idF nodeList _ _ _ _
    (chainId_spec linkF idF nodeList startNode) (by simp)

/-- The search-instrumented identifier-mode call walker folds the callback
over the tail of the visit sequence and performs one collection search per
visited node whose link field is not `undefined`. -/
theorem walkChainIdCallSyncSearchRec_eq {m : Nat} {U D : Type}
    (linkF idF : Fin m → JSVal) (nodeList : List (Fin m))
    (callback : Fin m → Option U → D → Option U) (data : D) :
    ∀ (fuel : Nat) (node : Fin m) (acc : Option U) (visited vsf : List (Fin m)),
      visitSeqIdRec linkF idF nodeList fuel node visited = some vsf →
      walkChainIdCallSyncSearchRec linkF idF nodeList callback data fuel node acc
          visited =
        some ((vsf.drop visited.length).foldl (fun a nd => callback nd a data) acc,
          ((vsf.drop visited.length).map linkF).filter (fun v => !(isUndef v))) := by
  intro fuel
  induction fuel with
  | zero => intro node acc visited vsf h; simp [visitSeqIdRec] at h
  | succ fuel ih =>
    intro node acc visited vsf h
    simp only [visitSeqIdRec] at h
    simp only [walkChainIdCallSyncSearchRec]
    by_cases hu : isUndef (linkF node) = true
    · rw [if_pos hu] at h ⊢
      have hv : vsf = (visited ++ [node]) ++ [] := by simp [← Option.some_inj.mp h]
      rw [hv, drop_append_cons]
      simp [List.filter_cons, hu]
    · rw [if_neg hu] at h ⊢
      by_cases hc :
          optIncludes (visited ++ [node]) (resolveId nodeList idF (linkF node)) = true
      · rw [if_pos hc] at h ⊢
        have hv : vsf = (visited ++ [node]) ++ [] := by simp [← Option.some_inj.mp h]
        rw [hv, drop_append_cons]
        simp [List.filter_cons, hu]
      · rw [if_neg hc] at h ⊢
        cases heq : resolveId nodeList idF (linkF node) with
        | none =>
          simp only [heq] at h ⊢
          have hv : vsf = (visited ++ [node]) ++ [] := by simp [← Option.some_inj.mp h]
          rw [hv, drop_append_cons]
          simp [List.filter_cons, hu]
        | some nx =>
          simp only [heq] at h ⊢
          rw [ih _ _ _ _ h]
          obtain ⟨t, ht⟩ := visitSeqIdRec_append linkF idF nodeList _ _ _ _ h
          subst ht
          have e2 : ((visited ++ [node]) ++ [nx]) ++ t =
              (visited ++ [node]) ++ (nx :: t) := by simp
          rw [e2, List.drop_left, drop_append_cons]
          simp [List.filter_cons, hu]

/-- The plain identifier-mode call walker is the first projection of the
search-instrumented one. -/
theorem walkChainIdCallSyncRec_eq_search {m : Nat} {U D : Type}
    (linkF idF : Fin m → JSVal) (nodeList : List (Fin m))
    (callback : Fin m → Option U → D → Option U) (data : D) :
    ∀ (fuel : Nat) (node : Fin m) (acc : Option U) (visited : List (Fin m)),
      walkChainIdCallSyncRec linkF idF nodeList callback data fuel node acc visited =
        (walkChainIdCallSyncSearchRec linkF idF nodeList callback data fuel node acc
          visited).map Prod.fst := by
  intro fuel
  induction fuel with
  | zero => intro node acc visited; rfl
  | succ fuel ih =>
    intro node acc visited
    simp only [walkChainIdCallSyncRec, walkChainIdCallSyncSearchRec]
    by_cases hu : isUndef (linkF node) = true
    · rw [if_pos hu, if_pos hu]; rfl
    · rw [if_neg hu, if_neg hu]
      by_cases hc :
          optIncludes (visited ++ [node]) (resolveId nodeList idF (linkF node)) = true
      · rw [if_pos hc, if_pos hc]; rfl
      · rw [if_neg hc, if_neg hc]
        cases heq : resolveId nodeList idF (linkF node) with
        | none => simp only [heq]; rfl
        | some nx =>
          simp only [heq]
          rw [ih]
          cases hrec : walkChainIdCallSyncSearchRec linkF idF nodeList callback data
              fuel nx (callback node acc data) (visited ++ [node]) with
          | none => rfl
          | some rc => cases rc with | mk r searches => rfl

/-- The asynchronous identifier-mode walker equals the synchronous one on the
resolved callback values. -/
theorem walkChainIdCallRec_eq_sync {m : Nat} {U D : Type}
    (linkF idF : Fin m → JSVal) (nodeList : List (Fin m))
    (callback : Fin m → Option U → D → Promise (Option U)) (data : D) :
    ∀ (fuel : Nat) (node : Fin m) (acc : Option U) (visited : List (Fin m)),
      walkChainIdCallRec linkF idF nodeList callback data fuel node acc visited =
        walkChainIdCallSyncRec linkF idF nodeList (fun nd a d => (callback nd a d).val)
          data fuel node acc visited := by
  intro fuel
  induction fuel with
  | zero => intro node acc visited; rfl
  | succ fuel ih =>
    intro node acc visited
    simp only [walkChainIdCallRec, walkChainIdCallSyncRec]
    by_cases hu : isUndef (linkF node) = true
    · rw [if_pos hu, if_pos hu]
    · rw [if_neg hu, if_neg hu]
      by_cases hc :
          optIncludes (visited ++ [node]) (resolveId nodeList idF (linkF node)) = true
      · rw [if_pos hc, if_pos hc]
      · rw [if_neg hc, if_neg hc]
        cases heq : resolveId nodeList idF (linkF node) with
        | none => simp only [heq]
        | some nx => simp only [heq]; exact ih _ _ _

/-- The instrumented identifier-mode merge walker computes `mergeLocalsLog` of
the local values along the tail of the visit sequence, and performs one
collection search per visited node whose link field is not `undefined`. -/
theorem walkChainIdMergeLogRec_eq {m : Nat} {V : Type}
    (linkF idF : Fin m → JSVal) (nodeList : List (Fin m))
    (mergeProp : Fin m → Option V)
    (mergeFunction : Option V → Option V → Option V) :
    ∀ (fuel : Nat) (node : Fin m) (visited vsf : List (Fin m)),
      visitSeqIdRec linkF idF nodeList fuel node visited = some vsf →
      walkChainIdMergeLogRec linkF idF nodeList mergeProp mergeFunction fuel node
          visited =
        some ((mergeLocalsLog mergeFunction ((vsf.drop visited.length).map mergeProp)).1,
          (mergeLocalsLog mergeFunction ((vsf.drop visited.length).map mergeProp)).2,
          ((vsf.drop visited.length).map linkF).filter (fun v => !(isUndef v))) := by
  intro fuel
  induction fuel with
  | zero => intro node visited vsf h; simp [visitSeqIdRec] at h
  | succ fuel ih =>
    intro node visited vsf h
    simp only [visitSeqIdRec] at h
    simp only [walkChainIdMergeLogRec]
    by_cases hu : isUndef (linkF node) = true
    · rw [if_pos hu] at h ⊢
      have hv : vsf = (visited ++ [node]) ++ [] := by simp [← Option.some_inj.mp h]
      rw [hv, drop_append_cons]
      simp [List.filter_cons, hu, mergeLocalsLog]
    · rw [if_neg hu] at h ⊢
      by_cases hc :
          optIncludes (visited ++ [node]) (resolveId nodeList idF (linkF node)) = true
      · rw [if_pos hc] at h ⊢
        have hv : vsf = (visited ++ [node]) ++ [] := by simp [← Option.some_inj.mp h]
        rw [hv, drop_append_cons]
        simp [List.filter_cons, hu, mergeLocalsLog]
      · rw [if_neg hc] at h ⊢
        cases heq : resolveId nodeList idF (linkF node) with
        | none =>
          simp only [heq] at h ⊢
          have hv : vsf = (visited ++ [node]) ++ [] := by simp [← Option.some_inj.mp h]
          rw [hv, drop_append_cons]
          simp [List.filter_cons, hu, mergeLocalsLog]
        | some nx =>
          simp only [heq] at h ⊢
          rw [ih _ _ _ h]
          obtain ⟨t, ht⟩ := visitSeqIdRec_append linkF idF nodeList _ _ _ _ h
          subst ht
          have e2 : ((visited ++ [node]) ++ [nx]) ++ t =
              (visited ++ [node]) ++ (nx :: t) := by simp
          rw [e2, List.drop_left, drop_append_cons]
          cases hmp : mergeProp node <;>
            simp [mergeLocalsLog, List.map_cons, List.filter_cons, hu, hmp]

/-- The plain identifier-mode merge walker is the first projection of the
instrumented one. -/
theorem walkChainIdMergeRec_eq_log {m : Nat} {V : Type}
    (linkF idF : Fin m → JSVal) (nodeList : List (Fin m))
    (mergeProp : Fin m → Option V)
    (mergeFunction : Option V → Option V → Option V) :
    ∀ (fuel : Nat) (node : Fin m) (visited : List (Fin m)),
      walkChainIdMergeRec linkF idF nodeList mergeProp mergeFunction fuel node visited =
        (walkChainIdMergeLogRec linkF idF nodeList mergeProp mergeFunction fuel node
          visited).map Prod.fst := by
  intro fuel
  induction fuel with
  | zero => intro node visited; rfl
  | succ fuel ih =>
    intro node visited
    simp only [walkChainIdMergeRec, walkChainIdMergeLogRec]
    by_cases hu : isUndef (linkF node) = true
    · rw [if_pos hu, if_pos hu]; rfl
    · rw [if_neg hu, if_neg hu]
      by_cases hc :
          optIncludes (visited ++ [node]) (resolveId nodeList idF (linkF node)) = true
      · rw [if_pos hc, if_pos hc]; rfl
      · rw [if_neg hc, if_neg hc]
        cases heq : resolveId nodeList idF (linkF node) with
        | none => simp only [heq]; rfl
        | some nx =>
          simp only [heq]
          rw [ih]
          cases hrec : walkChainIdMergeLogRec linkF idF nodeList mergeProp mergeFunction
              fuel nx (visited ++ [node]) with
          | none => rfl
          | some rc =>
            obtain ⟨rest, calls, searches⟩ := rc
            cases hmp : mergeProp node <;> simp [hmp]

/-! ### Lemmas on `mergeLocals` and `mergeLocalsLog` -/

theorem mergeLocalsLog_fst {V : Type} (mf : Option V → Option V → Option V) :
    ∀ ls : List (Option V), (mergeLocalsLog mf ls).1 = mergeLocals mf ls
  | [] => rfl
  | [_] => rfl
  | l :: l2 :: ls => by
    cases l with
    | none => simp [mergeLocalsLog, mergeLocals, mergeLocalsLog_fst mf (l2 :: ls)]
    | some v => simp [mergeLocalsLog, mergeLocals, mergeLocalsLog_fst mf (l2 :: ls)]

/-- The second arguments of the logged merge calls are exactly the defined
local values of the non-terminal positions, farthest first. -/
theorem mergeLocalsLog_snd_map {V : Type} (mf : Option V → Option V → Option V) :
    ∀ ls : List (Option V),
      ((mergeLocalsLog mf ls).2).map Prod.snd =
        (ls.dropLast.filter Option.isSome).reverse
  | [] => rfl
  | [_] => rfl
  | l :: l2 :: ls => by
    cases l with
    | none =>
      simp [mergeLocalsLog, List.dropLast, List.filter_cons,
        mergeLocalsLog_snd_map mf (l2 :: ls)]
    | some v =>
      simp [mergeLocalsLog, List.dropLast, List.filter_cons,
        mergeLocalsLog_snd_map mf (l2 :: ls)]

theorem mergeLocals_all_none {V : Type} (mf : Option V → Option V → Option V) :
    ∀ ls : List (Option V), (∀ l ∈ ls, l = none) → mergeLocals mf ls = none
  | [] => fun _ => rfl
  | [l] => fun h => by simp [mergeLocals, h l (by simp)]
  | l :: l2 :: ls => fun h => by
    have hl : l = none := h l (by simp)
    subst hl
    simp only [mergeLocals]
    exact mergeLocals_all_none mf (l2 :: ls) (fun x hx => h x (by simp [hx]))

theorem mergeLocals_cons_some {V : Type} (mf : Option V → Option V → Option V)
    (v : V) (l2 : Option V) (ls : List (Option V)) :
    mergeLocals mf (some v :: l2 :: ls) = mf (mergeLocals mf (l2 :: ls)) (some v) :=
  rfl

/-! ### Wrapper-level equations -/

theorem walkChainCallSync_eq_fold {n : Nat} {U D : Type}
    (link : Fin n → Option (Fin n)) (callback : Fin n → Option U → D → Option U)
    (data : D) (startNode : Fin n) :
    walkChainCallSync link callback data startNode =
      some ((chainD link startNode).foldl (fun a nd => callback nd a data) none) := by
  have h := walkChainCallSyncRec_eq link callback data (n + 1) startNode none [] _
    (chainD_spec link startNode)
  simpa using h

theorem walkChainCall_eq_sync {n : Nat} {U D : Type} (link : Fin n → Option (Fin n))
    (callback : Fin n → Option U → D → Promise (Option U)) (data : D)
    (startNode : Fin n) :
    walkChainCall link callback data startNode =
      walkChainCallSync link (fun nd a d => (callback nd a d).val) data startNode :=
  walkChainCallRec_eq_sync link callback data (n + 1) startNode none []

theorem walkChainMergeLog_eq {n : Nat} {V : Type} (link : Fin n → Option (Fin n))
    (mergeProp : Fin n → Option V)
    (mergeFunction : Option V → Option V → Option V) (startNode : Fin n) :
    walkChainMergeLog link mergeProp mergeFunction startNode =
      some (mergeLocalsLog mergeFunction ((chainD link startNode).map mergeProp)) := by
  have h := walkChainMergeLogRec_eq link mergeProp mergeFunction (n + 1) startNode [] _
    (chainD_spec link startNode)
  simpa using h

theorem walkChainMerge_eq {n : Nat} {V : Type} (link : Fin n → Option (Fin n))
    (mergeProp : Fin n → Option V)
    (mergeFunction : Option V → Option V → Option V) (startNode : Fin n) :
    walkChainMerge link mergeProp mergeFunction startNode =
      some (mergeLocals mergeFunction ((chainD link startNode).map mergeProp)) := by
  have h := walkChainMergeRec_eq_log link mergeProp mergeFunction (n + 1) startNode []
  rw [walkChainMerge, h]
  rw [show walkChainMergeLogRec link mergeProp mergeFunction (n + 1) startNode [] =
    walkChainMergeLog link mergeProp mergeFunction startNode from rfl]
  rw [walkChainMergeLog_eq]
  simp [mergeLocalsLog_fst]

theorem walkChainIdCallSyncSearch_eq {m : Nat} {U D : Type}
    (linkF idF : Fin m → JSVal) (nodeList : List (Fin m))
    (callback : Fin m → Option U → D → Option U) (data : D) (startNode : Fin m) :
    walkChainIdCallSyncSearch linkF idF nodeList callback data startNode =
      some ((chainId linkF idF nodeList startNode).foldl
          (fun a nd => callback nd a data) none,
        ((chainId linkF idF nodeList startNode).map linkF).filter
          (fun v => !(isUndef v))) := by
  have h := walkChainIdCallSyncSearchRec_eq linkF idF nodeList callback data (m + 1)
    startNode none [] _ (chainId_spec linkF idF nodeList startNode)
  simpa using h

theorem walkChainIdCallSync_eq_fold {m : Nat} {U D : Type}
    (linkF idF : Fin m → JSVal) (nodeList : List (Fin m))
    (callback : Fin m → Option U → D → Option U) (data : D) (startNode : Fin m) :
    walkChainIdCallSync linkF idF nodeList callback data startNode =
      some ((chainId linkF idF nodeList startNode).foldl
        (fun a nd => callback nd a data) none) := by
  have h := walkChainIdCallSyncRec_eq_search linkF idF nodeList callback data (m + 1)
    startNode none []
  rw [walkChainIdCallSync, h]
  rw [show walkChainIdCallSyncSearchRec linkF idF nodeList callback data (m + 1)
      startNode none [] =
    walkChainIdCallSyncSearch linkF idF nodeList callback data startNode from rfl]
  rw [walkChainIdCallSyncSearch_eq]
  rfl

theorem walkChainIdCall_eq_sync {m : Nat} {U D : Type} (linkF idF : Fin m → JSVal)
    (nodeList : List (Fin m))
    (callback : Fin m → Option U → D → Promise (Option U)) (data : D)
    (startNode : Fin m) :
    walkChainIdCall linkF idF nodeList callback data startNode =
      walkChainIdCallSync linkF idF nodeList (fun nd a d => (callback nd a d).val)
        data startNode :=
  walkChainIdCallRec_eq_sync linkF idF nodeList callback data (m + 1) startNode none []

theorem walkChainIdMergeLog_eq {m : Nat} {V : Type} (linkF idF : Fin m → JSVal)
    (nodeList : List (Fin m)) (mergeProp : Fin m → Option V)
    (mergeFunction : Option V → Option V → Option V) (startNode : Fin m) :
    walkChainIdMergeLog linkF idF nodeList mergeProp mergeFunction startNode =
      some ((mergeLocalsLog mergeFunction
          ((chainId linkF idF nodeList startNode).map mergeProp)).1,
        (mergeLocalsLog mergeFunction
          ((chainId linkF idF nodeList startNode).map mergeProp)).2,
        ((chainId linkF idF nodeList startNode).map linkF).filter
          (fun v => !(isUndef v))) := by
  have h := walkChainIdMergeLogRec_eq linkF idF nodeList mergeProp mergeFunction
    (m + 1) startNode [] _ (chainId_spec linkF idF nodeList startNode)
  simpa using h

theorem walkChainIdMerge_eq {m : Nat} {V : Type} (linkF idF : Fin m → JSVal)
    (nodeList : List (Fin m)) (mergeProp : Fin m → Option V)
    (mergeFunction : Option V → Option V → Option V) (startNode : Fin m) :
    walkChainIdMerge linkF idF nodeList mergeProp mergeFunction startNode =
      some (mergeLocals mergeFunction
        ((chainId linkF idF nodeList startNode).map mergeProp)) := by
  have h := walkChainIdMergeRec_eq_log linkF idF nodeList mergeProp mergeFunction
    (m + 1) startNode []
  rw [walkChainIdMerge, h]
  rw [show walkChainIdMergeLogRec linkF idF nodeList mergeProp mergeFunction (m + 1)
      startNode [] =
    walkChainIdMergeLog linkF idF nodeList mergeProp mergeFunction startNode from rfl]
  rw [walkChainIdMergeLog_eq]
  simp [mergeLocalsLog_fst]

/-! ### Lemmas on first-match search and loose equality -/

/-- A successful `find?` returns an element satisfying the predicate such
that every earlier element of the list fails it. -/
theorem find?_first_match {α : Type} (p : α → Bool) :
    ∀ (l : List α) (a : α), l.find? p = some a →
      p a = true ∧ ∃ l1 l2, l = l1 ++ a :: l2 ∧ ∀ x ∈ l1, p x = false := by
  intro l
  induction l with
  | nil => intro a h; simp at h
  | cons b l ih =>
    intro a h
    by_cases hb : p b = true
    · rw [List.find?_cons_of_pos _ hb] at h
      obtain rfl := Option.some_inj.mp h
      exact ⟨hb, [], l, rfl, by simp⟩
    · rw [List.find?_cons_of_neg _ hb] at h
      obtain ⟨hpa, l1, l2, rfl, hl1⟩ := ih a h
      refine ⟨hpa, b :: l1, l2, rfl, ?_⟩
      intro x hx
      rcases List.mem_cons.mp hx with rfl | hx
      · simpa using hb
      · exact hl1 x hx

/-- Loose equality against `null` holds exactly for `null` and `undefined`. -/
theorem looseEq_null_iff (v : JSVal) :
    looseEq v JSVal.null = (isNull v || isUndef v) := by
  cases v <;> rfl

/-- When the start node's link is `undefined` or points back to the start
node itself, the walk visits only the start node. -/
theorem chainD_singleton {n : Nat} (link : Fin n → Option (Fin n)) (startNode : Fin n)
    (h : link startNode = none ∨ link startNode = some startNode) :
    chainD link startNode = [startNode] := by
  have hv : visitSeqDRec link (n + 1) startNode [] = some [startNode] := by
    simp only [visitSeqDRec, List.nil_append]
    rcases h with h | h
    · simp [h, optIncludes]
    · simp [h, optIncludes]
  rw [chainD, hv]
  rfl

/-- When the start node's link is `undefined`, resolves to no node, or
resolves back to the start node, the identifier-mode walk visits only the
start node. -/
theorem chainId_singleton {m : Nat} (linkF idF : Fin m → JSVal)
    (nodeList : List (Fin m)) (startNode : Fin m)
    (h : isUndef (linkF startNode) = true ∨
      resolveId nodeList idF (linkF startNode) = none ∨
      resolveId nodeList idF (linkF startNode) = some startNode) :
    chainId linkF idF nodeList startNode = [startNode] := by
  have hv : visitSeqIdRec linkF idF nodeList (m + 1) startNode [] =
      some [startNode] := by
    simp only [visitSeqIdRec, List.nil_append]
    rcases h with h | h | h
    · simp [h]
    all_goals
      by_cases hu : isUndef (linkF startNode) = true
    · simp [hu]
    · simp [hu, h, optIncludes]
    · simp [hu]
    · simp [hu, h, optIncludes]
  rw [chainId, hv]
  rfl

/-! ### The claims -/

/-- C2: for the synchronous call traversal over any chain, the result is the
callback folded once per visited node in start-to-end order over the visit
sequence (which begins at the start node and repeats no node), with the very
first invocation receiving the absence marker `none` (JavaScript
`undefined`) and the traversal returning the accumulator of the last
invocation; on the three-node chain `A→B→C` with ids `"a"`, `"b"`, `"c"` and
the callback `(node, acc) => acc === undefined ? node.id : acc + node.id`
the result is `"abc"`. -/
theorem C2_call_sync_threading :
    (∀ (n : Nat) (U D : Type) (link : Fin n → Option (Fin n))
        (callback : Fin n → Option U → D → Option U) (data : D) (startNode : Fin n),
      walkChainCallSync link callback data startNode =
        some ((chainD link startNode).foldl (fun a nd => callback nd a data) none) ∧
      (chainD link startNode).Nodup ∧
      ∃ t, chainD link startNode = startNode :: t) ∧
    walkChainCallSync exLink exCallback () 0 = some (some "abc") := by
  refine ⟨fun n U D link callback data startNode =>
    ⟨walkChainCallSync_eq_fold link callback data startNode,
     chainD_nodup link startNode, chainD_cons link startNode⟩, ?_⟩
  rfl

/-- C3: in merge mode (direct and identifier resolution) the traversal
computes `mergeLocals`/`mergeLocalsLog` of the local property values along
the visit sequence, so every merge invocation receives the combined value of
the farther nodes as its first argument and the current (nearer) node's local
value as its second; on `A→B→C` with properties `{x:1}`, `{y:2}`, `{x:3,z:4}`
and shallow object override the result is `{x:1, y:2, z:4}`. -/
theorem C3_merge_order :
    (∀ (n : Nat) (V : Type) (link : Fin n → Option (Fin n))
        (mergeProp : Fin n → Option V)
        (mergeFunction : Option V → Option V → Option V) (startNode : Fin n),
      walkChainMergeLog link mergeProp mergeFunction startNode =
        some (mergeLocalsLog mergeFunction ((chainD link startNode).map mergeProp)) ∧
      walkChainMerge link mergeProp mergeFunction startNode =
        some (mergeLocals mergeFunction ((chainD link startNode).map mergeProp))) ∧
    (∀ (m : Nat) (V : Type) (linkF idF : Fin m → JSVal) (nodeList : List (Fin m))
        (mergeProp : Fin m → Option V)
        (mergeFunction : Option V → Option V → Option V) (startNode : Fin m),
      walkChainIdMerge linkF idF nodeList mergeProp mergeFunction startNode =
        some (mergeLocals mergeFunction
          ((chainId linkF idF nodeList startNode).map mergeProp))) ∧
    (∃ r : List (String × Int),
      walkChainMerge exLink exProps objMergeF 0 = some (some r) ∧
      r.lookup "x" = some 1 ∧ r.lookup "y" = some 2 ∧ r.lookup "z" = some 4 ∧
      r.length = 3) := by
  refine ⟨fun n V link mergeProp mergeFunction startNode =>
    ⟨walkChainMergeLog_eq link mergeProp mergeFunction startNode,
     walkChainMerge_eq link mergeProp mergeFunction startNode⟩,
    fun m V linkF idF nodeList mergeProp mergeFunction startNode =>
      walkChainIdMerge_eq linkF idF nodeList mergeProp mergeFunction startNode, ?_⟩
  exact ⟨[("x", 1), ("z", 4), ("y", 2)], rfl, rfl, rfl, rfl, rfl⟩

/-- C8: the asynchronous call traversal equals the synchronous one on the
resolved callback values — it awaits each callback before resolving the next
node, so two async callbacks with identical resolved values but arbitrarily
different completion delays give identical results, namely the strictly
sequential start-to-end fold. -/
theorem C8_async_equals_sync :
    (∀ (n : Nat) (U D : Type) (link : Fin n → Option (Fin n))
        (callback : Fin n → Option U → D → Promise (Option U)) (data : D)
        (startNode : Fin n),
      walkChainCall link callback data startNode =
        walkChainCallSync link (fun nd a d => (callback nd a d).val) data startNode ∧
      walkChainCall link callback data startNode =
        some ((chainD link startNode).foldl
          (fun a nd => (callback nd a data).val) none)) ∧
    (∀ (n : Nat) (U D : Type) (link : Fin n → Option (Fin n))
        (cb1 cb2 : Fin n → Option U → D → Promise (Option U)) (data : D)
        (startNode : Fin n),
      (∀ nd a d, (cb1 nd a d).val = (cb2 nd a d).val) →
      walkChainCall link cb1 data startNode = walkChainCall link cb2 data startNode) := by
  constructor
  · intro n U D link callback data startNode
    refine ⟨walkChainCall_eq_sync link callback data startNode, ?_⟩
    rw [walkChainCall_eq_sync, walkChainCallSync_eq_fold]
  · intro n U D link cb1 cb2 data startNode h
    have hfun : (fun nd a d => (cb1 nd a d).val) = (fun nd a d => (cb2 nd a d).val) := by
      funext nd a d
      exact h nd a d
    rw [walkChainCall_eq_sync, walkChainCall_eq_sync, hfun]

/-- Witness for C8: on the chain `A→B→C`, staggering the completion delays so
that the callback at `C` settles faster than the one at `B` does not change
the final accumulator. -/
theorem C8_witness :
    walkChainCall exLink asyncCb1 () 0 = walkChainCall exLink asyncCb2 () 0 :=
  C8_async_equals_sync.2 3 String Unit exLink asyncCb1 asyncCb2 () 0
    (fun _ _ _ => rfl)

/-- C4: in merge mode (direct and identifier resolution) the second arguments
of the merge calls actually performed are exactly the *defined* local values
of the non-terminal visited nodes — a node whose local value is `undefined`
never contributes an argument and its recursive result is passed through; if
every visited node's property is absent the overall result is `undefined`;
and on `A→B→C` where the property of `B` is `undefined` the result is exactly the
merge of the values of `C` and `A`. -/
theorem C4_merge_skips_absent :
    (∀ (n : Nat) (V : Type) (link : Fin n → Option (Fin n))
        (mergeProp : Fin n → Option V)
        (mergeFunction : Option V → Option V → Option V) (startNode : Fin n),
      ((walkChainMergeLog link mergeProp mergeFunction startNode).getD
          (none, [])).2.map Prod.snd =
        (((chainD link startNode).map mergeProp).dropLast.filter
          Option.isSome).reverse) ∧
    (∀ (m : Nat) (V : Type) (linkF idF : Fin m → JSVal) (nodeList : List (Fin m))
        (mergeProp : Fin m → Option V)
        (mergeFunction : Option V → Option V → Option V) (startNode : Fin m),
      ((walkChainIdMergeLog linkF idF nodeList mergeProp mergeFunction
          startNode).getD (none, [], [])).2.1.map Prod.snd =
        (((chainId linkF idF nodeList startNode).map mergeProp).dropLast.filter
          Option.isSome).reverse) ∧
    (∀ (n : Nat) (V : Type) (link : Fin n → Option (Fin n))
        (mergeProp : Fin n → Option V)
        (mergeFunction : Option V → Option V → Option V) (startNode : Fin n),
      (∀ nd ∈ chainD link startNode, mergeProp nd = none) →
      walkChainMerge link mergeProp mergeFunction startNode = some none) ∧
    walkChainMerge exLink exPropsB objMergeF 0 =
      some (objMergeF (exPropsB 2) (exPropsB 0)) := by
  refine ⟨?_, ?_, ?_, ?_⟩
  · intro n V link mergeProp mergeFunction startNode
    rw [walkChainMergeLog_eq]
    simp only [Option.getD_some]
    exact mergeLocalsLog_snd_map mergeFunction _
  · intro m V linkF idF nodeList mergeProp mergeFunction startNode
    rw [walkChainIdMergeLog_eq]
    simp only [Option.getD_some]
    exact mergeLocalsLog_snd_map mergeFunction _
  · intro n V link mergeProp mergeFunction startNode h
    rw [walkChainMerge_eq]
    congr 1
    refine mergeLocals_all_none mergeFunction _ ?_
    intro l hl
    obtain ⟨nd, hnd, rfl⟩ := List.mem_map.mp hl
    exact h nd hnd
  · rfl

/-- Witness for C4: when every node of the two-node cycle has an absent
property, any merge function gives the result `undefined`. -/
theorem C4_witness :
    walkChainMerge cycLink (fun _ => (none : Option (List (String × Int))))
      objMergeF 0 = some none :=
  C4_merge_skips_absent.2.2.1 2 (List (String × Int)) cycLink _ objMergeF 0
    (fun _ _ => rfl)

/-- C5: in merge mode, when the start node is the end of the chain — its link
is `undefined`, the resolved next node does not exist, or the next node is a
repeat — the result is exactly the start node's own local value (present or
absent) and no merge call is made; in general the number of merge calls
equals the number of non-terminal visited nodes with a defined local value,
so the terminal node never triggers a merge call. -/
theorem C5_merge_terminal_local :
    (∀ (n : Nat) (V : Type) (link : Fin n → Option (Fin n))
        (mergeProp : Fin n → Option V)
        (mergeFunction : Option V → Option V → Option V) (startNode : Fin n),
      (link startNode = none ∨ link startNode = some startNode) →
      walkChainMergeLog link mergeProp mergeFunction startNode =
        some (mergeProp startNode, []) ∧
      walkChainMerge link mergeProp mergeFunction startNode =
        some (mergeProp startNode)) ∧
    (∀ (m : Nat) (V : Type) (linkF idF : Fin m → JSVal) (nodeList : List (Fin m))
        (mergeProp : Fin m → Option V)
        (mergeFunction : Option V → Option V → Option V) (startNode : Fin m),
      (isUndef (linkF startNode) = true ∨
       resolveId nodeList idF (linkF startNode) = none ∨
       resolveId nodeList idF (linkF startNode) = some startNode) →
      walkChainIdMerge linkF idF nodeList mergeProp mergeFunction startNode =
        some (mergeProp startNode) ∧
      ((walkChainIdMergeLog linkF idF nodeList mergeProp mergeFunction
        startNode).getD (none, [], [])).2.1 = []) ∧
    (∀ (n : Nat) (V : Type) (link : Fin n → Option (Fin n))
        (mergeProp : Fin n → Option V)
        (mergeFunction : Option V → Option V → Option V) (startNode : Fin n),
      ((walkChainMergeLog link mergeProp mergeFunction startNode).getD
          (none, [])).2.length =
        (((chainD link startNode).map mergeProp).dropLast.filter
          Option.isSome).length) := by
  refine ⟨?_, ?_, ?_⟩
  · intro n V link mergeProp mergeFunction startNode h
    have hch := chainD_singleton link startNode h
    constructor
    · rw [walkChainMergeLog_eq, hch]; rfl
    · rw [walkChainMerge_eq, hch]; rfl
  · intro m V linkF idF nodeList mergeProp mergeFunction startNode h
    have hch := chainId_singleton linkF idF nodeList startNode h
    constructor
    · rw [walkChainIdMerge_eq, hch]; rfl
    · rw [walkChainIdMergeLog_eq, hch]; rfl
  · intro n V link mergeProp mergeFunction startNode
    rw [walkChainMergeLog_eq]
    simp only [Option.getD_some]
    rw [show ((mergeLocalsLog mergeFunction
        ((chainD link startNode).map mergeProp)).2).length =
      (((mergeLocalsLog mergeFunction
        ((chainD link startNode).map mergeProp)).2).map Prod.snd).length from
      (List.length_map _ _).symm]
    rw [mergeLocalsLog_snd_map, List.length_reverse]

/-- Witness for C5: a single terminal node with a present property keeps its
own value with no merge call (direct mode), and an identifier-mode start node
with `undefined` link and absent property gives `undefined` with no merge
call. -/
theorem C5_witness :
    (walkChainMergeLog termLink (fun _ => some [("x", 1)]) objMergeF 0 =
        some (some [("x", 1)], []) ∧
      walkChainMerge termLink (fun _ => some [("x", 1)]) objMergeF 0 =
        some (some [("x", 1)])) ∧
    (walkChainIdMerge undefLinkF undefIdF [0, 1]
        (fun _ => (none : Option (List (String × Int)))) objMergeF 0 = some none ∧
      ((walkChainIdMergeLog undefLinkF undefIdF [0, 1]
        (fun _ => (none : Option (List (String × Int)))) objMergeF 0).getD
          (none, [], [])).2.1 = []) :=
  ⟨C5_merge_terminal_local.1 1 (List (String × Int)) termLink _ objMergeF 0
      (Or.inl rfl),
   C5_merge_terminal_local.2.1 2 (List (String × Int)) undefLinkF undefIdF [0, 1]
      _ objMergeF 0 (Or.inl rfl)⟩

/-- C9: in merge mode (direct and identifier resolution), a non-terminal
start node with a present local value whose farther nodes all have absent
values still gets one merge call, with `undefined` as the farther argument:
the result is `mergeFunction undefined value`, not the value alone. -/
theorem C9_merge_none_farther_still_called :
    (∀ (n : Nat) (V : Type) (link : Fin n → Option (Fin n))
        (mergeProp : Fin n → Option V)
        (mergeFunction : Option V → Option V → Option V) (startNode : Fin n)
        (v : V) (t : List (Fin n)),
      chainD link startNode = startNode :: t → t ≠ [] →
      mergeProp startNode = some v → (∀ nd ∈ t, mergeProp nd = none) →
      walkChainMerge link mergeProp mergeFunction startNode =
        some (mergeFunction none (some v))) ∧
    (∀ (m : Nat) (V : Type) (linkF idF : Fin m → JSVal) (nodeList : List (Fin m))
        (mergeProp : Fin m → Option V)
        (mergeFunction : Option V → Option V → Option V) (startNode : Fin m)
        (v : V) (t : List (Fin m)),
      chainId linkF idF nodeList startNode = startNode :: t → t ≠ [] →
      mergeProp startNode = some v → (∀ nd ∈ t, mergeProp nd = none) →
      walkChainIdMerge linkF idF nodeList mergeProp mergeFunction startNode =
        some (mergeFunction none (some v))) := by
  constructor
  · intro n V link mergeProp mergeFunction startNode v t hch hne hv hall
    rw [walkChainMerge_eq, hch]
    cases t with
    | nil => exact absurd rfl hne
    | cons t0 t' =>
      have hnone : mergeLocals mergeFunction (mergeProp t0 :: t'.map mergeProp) =
          none := by
        refine mergeLocals_all_none mergeFunction _ ?_
        intro l hl
        rcases List.mem_cons.mp hl with rfl | hl
        · exact hall t0 (by simp)
        · obtain ⟨nd, hnd, rfl⟩ := List.mem_map.mp hl
          exact hall nd (by simp [hnd])
      simp only [List.map_cons, hv]
      rw [mergeLocals_cons_some, hnone]
  · intro m V linkF idF nodeList mergeProp mergeFunction startNode v t hch hne hv hall
    rw [walkChainIdMerge_eq, hch]
    cases t with
    | nil => exact absurd rfl hne
    | cons t0 t' =>
      have hnone : mergeLocals mergeFunction (mergeProp t0 :: t'.map mergeProp) =
          none := by
        refine mergeLocals_all_none mergeFunction _ ?_
        intro l hl
        rcases List.mem_cons.mp hl with rfl | hl
        · exact hall t0 (by simp)
        · obtain ⟨nd, hnd, rfl⟩ := List.mem_map.mp hl
          exact hall nd (by simp [hnd])
      simp only [List.map_cons, hv]
      rw [mergeLocals_cons_some, hnone]

/-- Witness for C9: on the chain `A→B` with `A:{x:1}` and `B` absent, the
result is `objMergeF undefined {x:1}` — the merge function is still
invoked. -/
theorem C9_witness :
    walkChainMerge pairLink pairProp objMergeF 0 =
      some (objMergeF none (some [("x", 1)])) :=
  C9_merge_none_farther_still_called.1 2 (List (String × Int)) pairLink pairProp
    objMergeF 0 [("x", 1)] [1] (by rfl) (by simp) rfl
    (by
      intro nd hnd
      have h1 : nd = 1 := by simpa using hnd
      subst h1
      rfl)

/-- C6: in identifier mode the collection searches performed are exactly one
per visited node whose link field is not strictly `undefined`; in particular,
when the start node's link field is `undefined`, the walk stops there with no
search at all (so a collection node whose own identifier field is absent can
never be matched in this case). -/
theorem C6_undef_link_no_search :
    (∀ (m : Nat) (U D : Type) (linkF idF : Fin m → JSVal) (nodeList : List (Fin m))
        (callback : Fin m → Option U → D → Option U) (data : D) (startNode : Fin m),
      ((walkChainIdCallSyncSearch linkF idF nodeList callback data startNode).getD
          (none, [])).2 =
        ((chainId linkF idF nodeList startNode).map linkF).filter
          (fun v => !(isUndef v))) ∧
    (∀ (m : Nat) (V : Type) (linkF idF : Fin m → JSVal) (nodeList : List (Fin m))
        (mergeProp : Fin m → Option V)
        (mergeFunction : Option V → Option V → Option V) (startNode : Fin m),
      ((walkChainIdMergeLog linkF idF nodeList mergeProp mergeFunction
          startNode).getD (none, [], [])).2.2 =
        ((chainId linkF idF nodeList startNode).map linkF).filter
          (fun v => !(isUndef v))) ∧
    (∀ (m : Nat) (U D : Type) (linkF idF : Fin m → JSVal) (nodeList : List (Fin m))
        (callback : Fin m → Option U → D → Option U) (data : D) (startNode : Fin m),
      isUndef (linkF startNode) = true →
      walkChainIdCallSyncSearch linkF idF nodeList callback data startNode =
        some (callback startNode none data, [])) ∧
    (∀ (m : Nat) (V : Type) (linkF idF : Fin m → JSVal) (nodeList : List (Fin m))
        (mergeProp : Fin m → Option V)
        (mergeFunction : Option V → Option V → Option V) (startNode : Fin m),
      isUndef (linkF startNode) = true →
      walkChainIdMergeLog linkF idF nodeList mergeProp mergeFunction startNode =
        some (mergeProp startNode, [], [])) := by
  refine ⟨?_, ?_, ?_, ?_⟩
  · intro m U D linkF idF nodeList callback data startNode
    rw [walkChainIdCallSyncSearch_eq]
    rfl
  · intro m V linkF idF nodeList mergeProp mergeFunction startNode
    rw [walkChainIdMergeLog_eq]
    rfl
  · intro m U D linkF idF nodeList callback data startNode hu
    have hch := chainId_singleton linkF idF nodeList startNode (Or.inl hu)
    rw [walkChainIdCallSyncSearch_eq, hch]
    simp [List.filter_cons, hu]
  · intro m V linkF idF nodeList mergeProp mergeFunction startNode hu
    have hch := chainId_singleton linkF idF nodeList startNode (Or.inl hu)
    rw [walkChainIdMergeLog_eq, hch]
    simp [List.filter_cons, hu, mergeLocalsLog]

/-- Witness for C6: with both link fields `undefined` and a collection whose
second node has an absent identifier field, the call walk stops at the start
node with an empty search log, and the merge walk yields the start node's
absent property with empty call and search logs. -/
theorem C6_witness :
    walkChainIdCallSyncSearch undefLinkF undefIdF [0, 1] cycCallback () 0 =
      some (some "a", []) ∧
    walkChainIdMergeLog undefLinkF undefIdF [0, 1]
      (fun _ => (none : Option (List (String × Int)))) objMergeF 0 =
      some (none, [], []) :=
  ⟨C6_undef_link_no_search.2.2.1 2 String Unit undefLinkF undefIdF [0, 1]
      cycCallback () 0 rfl,
   C6_undef_link_no_search.2.2.2 2 (List (String × Int)) undefLinkF undefIdF [0, 1]
      _ objMergeF 0 rfl⟩

/-- C7: a successful identifier resolution returns the first element in
collection order whose identifier field loosely equals the link value (every
earlier element fails the comparison), resolution fails exactly when no
element matches, and a resolved next node distinct from the start node is the
second visited node; with two collection entries sharing id `"p"`, resolution
returns the earlier one and the walk visits it. -/
theorem C7_first_match :
    (∀ (m : Nat) (idF : Fin m → JSVal) (nodeList : List (Fin m)) (linkId : JSVal)
        (nd : Fin m),
      resolveId nodeList idF linkId = some nd →
      looseEq (idF nd) linkId = true ∧
      ∃ l1 l2, nodeList = l1 ++ nd :: l2 ∧
        ∀ x ∈ l1, looseEq (idF x) linkId = false) ∧
    (∀ (m : Nat) (idF : Fin m → JSVal) (nodeList : List (Fin m)) (linkId : JSVal),
      resolveId nodeList idF linkId = none ↔
      ∀ nd ∈ nodeList, looseEq (idF nd) linkId = false) ∧
    (∀ (m : Nat) (linkF idF : Fin m → JSVal) (nodeList : List (Fin m))
        (startNode nx : Fin m),
      isUndef (linkF startNode) = false →
      resolveId nodeList idF (linkF startNode) = some nx → nx ≠ startNode →
      ∃ t, chainId linkF idF nodeList startNode = startNode :: nx :: t) ∧
    (resolveId dupList dupIdF (JSVal.str "p") = some 1 ∧
      chainId dupLinkF dupIdF dupList 0 = [0, 1]) := by
  refine ⟨?_, ?_, ?_, rfl, rfl⟩
  · intro m idF nodeList linkId nd h
    obtain ⟨hp, l1, l2, heq, hl1⟩ := find?_first_match _ nodeList nd h
    exact ⟨hp, l1, l2, heq, hl1⟩
  · intro m idF nodeList linkId
    constructor
    · intro h nd hnd
      have h2 := List.find?_eq_none.mp h nd hnd
      simpa using h2
    · intro h
      refine List.find?_eq_none.mpr ?_
      intro nd hnd
      simp [h nd hnd]
  · intro m linkF idF nodeList startNode nx hu heq hne
    obtain ⟨vsf, hv⟩ := visitSeqIdRec_isSome linkF idF nodeList m nx [startNode]
      (by simp [Ne.symm hne]) (by omega)
    obtain ⟨t, ht⟩ := visitSeqIdRec_append linkF idF nodeList _ _ _ _ hv
    have hch : visitSeqIdRec linkF idF nodeList (m + 1) startNode [] = some vsf := by
      simp only [visitSeqIdRec, List.nil_append]
      rw [if_neg (by simp [hu])]
      rw [if_neg (by simp [optIncludes, heq, hne])]
      simp only [heq]
      exact hv
    rw [chainId, hch]
    refine ⟨t, ?_⟩
    simp [ht]

/-- Witness for C7: node 1 is the first of the two entries with id `"p"` —
every earlier collection element fails the comparison — and the walk from
node 0 visits node 1 second. -/
theorem C7_witness :
    (looseEq (dupIdF 1) (JSVal.str "p") = true ∧
      ∃ l1 l2, dupList = l1 ++ (1 : Fin 3) :: l2 ∧
        ∀ x ∈ l1, looseEq (dupIdF x) (JSVal.str "p") = false) ∧
    (∃ t, chainId dupLinkF dupIdF dupList 0 = 0 :: 1 :: t) :=
  ⟨C7_first_match.1 3 dupIdF dupList (JSVal.str "p") 1 rfl,
   C7_first_match.2.2.1 3 dupLinkF dupIdF dupList 0 1 rfl rfl (by decide)⟩

/-- C10: only the strict value `undefined` in the link field stops the
identifier-mode walk before searching — loose equality against `null` holds
exactly for `null` and `undefined` identifier fields, resolving a `null` link
searches for the first node whose identifier is `null` or `undefined`, any
start node whose link is not strictly `undefined` triggers a search for that
link value, and a `null`-linked start node walks to a node whose identifier
field is absent. -/
theorem C10_null_link_searched :
    (∀ v : JSVal, looseEq v JSVal.null = (isNull v || isUndef v)) ∧
    (∀ (m : Nat) (idF : Fin m → JSVal) (nodeList : List (Fin m)),
      resolveId nodeList idF JSVal.null =
        nodeList.find? (fun nd => isNull (idF nd) || isUndef (idF nd))) ∧
    (∀ (m : Nat) (U D : Type) (linkF idF : Fin m → JSVal) (nodeList : List (Fin m))
        (callback : Fin m → Option U → D → Option U) (data : D) (startNode : Fin m),
      isUndef (linkF startNode) = false →
      ∃ rest, ((walkChainIdCallSyncSearch linkF idF nodeList callback data
          startNode).getD (none, [])).2 = linkF startNode :: rest) ∧
    chainId nullLinkF nullIdF [0, 1] 0 = [0, 1] := by
  refine ⟨looseEq_null_iff, ?_, ?_, rfl⟩
  · intro m idF nodeList
    unfold resolveId
    congr 1
    funext nd
    exact looseEq_null_iff _
  · intro m U D linkF idF nodeList callback data startNode hu
    rw [walkChainIdCallSyncSearch_eq]
    simp only [Option.getD_some]
    obtain ⟨t, hch⟩ := chainId_cons linkF idF nodeList startNode
    rw [hch]
    refine ⟨(t.map linkF).filter (fun v => !(isUndef v)), ?_⟩
    simp [List.filter_cons, hu]

/-- Witness for C10: the start node's `null` link is searched (the search log
begins with `null`). -/
theorem C10_witness :
    ∃ rest, ((walkChainIdCallSyncSearch nullLinkF nullIdF [0, 1] cycCallback ()
        0).getD (none, [])).2 = nullLinkF 0 :: rest :=
  C10_null_link_searched.2.2.1 2 String Unit nullLinkF nullIdF [0, 1]
    cycCallback () 0 rfl

/-- C1: each of the six traversal functions terminates within `N + 1` steps
for every chain, cyclic chains included, where `N` is the number of distinct
nodes visited before the repeat or dead end (`chainD`/`chainId`, which repeat
no node): every fuel bound of at least `N + 1` yields the same defined
result, namely the fold (call mode) or local-value combination (merge mode)
over the visit sequence ending at the node where the stop was detected. -/
theorem C1_termination_bound :
    (∀ (n : Nat) (U V D : Type) (link : Fin n → Option (Fin n))
        (cb : Fin n → Option U → D → Option U)
        (acb : Fin n → Option U → D → Promise (Option U))
        (mp : Fin n → Option V) (mf : Option V → Option V → Option V)
        (data : D) (startNode : Fin n),
      (∃ r, (∀ fuel, (chainD link startNode).length + 1 ≤ fuel →
            walkChainCallSyncRec link cb data fuel startNode none [] = some r) ∧
          r = (chainD link startNode).foldl (fun a nd => cb nd a data) none) ∧
      (∃ r, (∀ fuel, (chainD link startNode).length + 1 ≤ fuel →
            walkChainCallRec link acb data fuel startNode none [] = some r) ∧
          r = (chainD link startNode).foldl (fun a nd => (acb nd a data).val) none) ∧
      (∃ r, (∀ fuel, (chainD link startNode).length + 1 ≤ fuel →
            walkChainMergeRec link mp mf fuel startNode [] = some r) ∧
          r = mergeLocals mf ((chainD link startNode).map mp))) ∧
    (∀ (m : Nat) (U V D : Type) (linkF idF : Fin m → JSVal) (nodeList : List (Fin m))
        (cb : Fin m → Option U → D → Option U)
        (acb : Fin m → Option U → D → Promise (Option U))
        (mp : Fin m → Option V) (mf : Option V → Option V → Option V)
        (data : D) (startNode : Fin m),
      (∃ r, (∀ fuel, (chainId linkF idF nodeList startNode).length + 1 ≤ fuel →
            walkChainIdCallSyncRec linkF idF nodeList cb data fuel startNode none [] =
              some r) ∧
          r = (chainId linkF idF nodeList startNode).foldl
            (fun a nd => cb nd a data) none) ∧
      (∃ r, (∀ fuel, (chainId linkF idF nodeList startNode).length + 1 ≤ fuel →
            walkChainIdCallRec linkF idF nodeList acb data fuel startNode none [] =
              some r) ∧
          r = (chainId linkF idF nodeList startNode).foldl
            (fun a nd => (acb nd a data).val) none) ∧
      (∃ r, (∀ fuel, (chainId linkF idF nodeList startNode).length + 1 ≤ fuel →
            walkChainIdMergeRec linkF idF nodeList mp mf fuel startNode [] = some r) ∧
          r = mergeLocals mf ((chainId linkF idF nodeList startNode).map mp))) := by
  constructor
  · intro n U V D link cb acb mp mf data startNode
    have hstable : ∀ fuel, (chainD link startNode).length ≤ fuel →
        visitSeqDRec link fuel startNode [] = some (chainD link startNode) := by
      intro fuel hle
      exact visitSeqDRec_stable link (n + 1) startNode [] _
        (chainD_spec link startNode) fuel (by simpa using hle)
    refine ⟨⟨(chainD link startNode).foldl (fun a nd => cb nd a data) none,
        ?_, rfl⟩,
      ⟨(chainD link startNode).foldl (fun a nd => (acb nd a data).val) none,
        ?_, rfl⟩,
      ⟨mergeLocals mf ((chainD link startNode).map mp), ?_, rfl⟩⟩
    · intro fuel hfuel
      have h := walkChainCallSyncRec_eq link cb data fuel startNode none [] _
        (hstable fuel (by omega))
      simpa using h
    · intro fuel hfuel
      rw [walkChainCallRec_eq_sync]
      have h := walkChainCallSyncRec_eq link (fun nd a d => (acb nd a d).val) data
        fuel startNode none [] _ (hstable fuel (by omega))
      simpa using h
    · intro fuel hfuel
      rw [walkChainMergeRec_eq_log,
        walkChainMergeLogRec_eq link mp mf fuel startNode [] _
          (hstable fuel (by omega))]
      simp [mergeLocalsLog_fst]
  · intro m U V D linkF idF nodeList cb acb mp mf data startNode
    have hstable : ∀ fuel, (chainId linkF idF nodeList startNode).length ≤ fuel →
        visitSeqIdRec linkF idF nodeList fuel startNode [] =
          some (chainId linkF idF nodeList startNode) := by
      intro fuel hle
      exact visitSeqIdRec_stable linkF idF nodeList (m + 1) startNode [] _
        (chainId_spec linkF idF nodeList startNode) fuel (by simpa using hle)
    refine ⟨⟨(chainId linkF idF nodeList startNode).foldl
          (fun a nd => cb nd a data) none, ?_, rfl⟩,
      ⟨(chainId linkF idF nodeList startNode).foldl
          (fun a nd => (acb nd a data).val) none, ?_, rfl⟩,
      ⟨mergeLocals mf ((chainId linkF idF nodeList startNode).map mp), ?_, rfl⟩⟩
    · intro fuel hfuel
      rw [walkChainIdCallSyncRec_eq_search,
        walkChainIdCallSyncSearchRec_eq linkF idF nodeList cb data fuel startNode
          none [] _ (hstable fuel (by omega))]
      simp
    · intro fuel hfuel
      rw [walkChainIdCallRec_eq_sync, walkChainIdCallSyncRec_eq_search,
        walkChainIdCallSyncSearchRec_eq linkF idF nodeList
          (fun nd a d => (acb nd a d).val) data fuel startNode none [] _
          (hstable fuel (by omega))]
      simp
    · intro fuel hfuel
      rw [walkChainIdMergeRec_eq_log,
        walkChainIdMergeLogRec_eq linkF idF nodeList mp mf fuel startNode [] _
          (hstable fuel (by omega))]
      simp [mergeLocalsLog_fst]

/-- Witness for C1: on the two-node cycle `A⇄B` (direct links and identifier
links), all six walkers finish with fuel `N + 1 = 3` and return the value
computed where the repeat was detected. -/
theorem C1_witness :
    walkChainCallSyncRec cycLink cycCallback () 3 0 none [] = some (some "ab") ∧
    walkChainCallRec cycLink (fun nd a d => ⟨5, cycCallback nd a d⟩) () 3 0 none [] =
      some (some "ab") ∧
    walkChainMergeRec cycLink cycProps objMergeF 3 0 [] =
      some (some [("y", 2), ("x", 1)]) ∧
    walkChainIdCallSyncRec cycLinkF cycIdF [0, 1] cycCallback () 3 0 none [] =
      some (some "ab") ∧
    walkChainIdCallRec cycLinkF cycIdF [0, 1]
      (fun nd a d => ⟨5, cycCallback nd a d⟩) () 3 0 none [] = some (some "ab") ∧
    walkChainIdMergeRec cycLinkF cycIdF [0, 1] cycProps objMergeF 3 0 [] =
      some (some [("y", 2), ("x", 1)]) := by
  obtain ⟨⟨r1, hr1, he1⟩, ⟨r2, hr2, he2⟩, ⟨r3, hr3, he3⟩⟩ :=
    C1_termination_bound.1 2 String (List (String × Int)) Unit cycLink cycCallback
      (fun nd a d => ⟨5, cycCallback nd a d⟩) cycProps objMergeF () 0
  obtain ⟨⟨r4, hr4, he4⟩, ⟨r5, hr5, he5⟩, ⟨r6, hr6, he6⟩⟩ :=
    C1_termination_bound.2 2 String (List (String × Int)) Unit cycLinkF cycIdF
      [0, 1] cycCallback (fun nd a d => ⟨5, cycCallback nd a d⟩) cycProps
      objMergeF () 0
  refine ⟨?_, ?_, ?_, ?_, ?_, ?_⟩
  · rw [hr1 3 (by decide), he1]; rfl
  · rw [hr2 3 (by decide), he2]; rfl
  · rw [hr3 3 (by decide), he3]; rfl
  · rw [hr4 3 (by decide), he4]; rfl
  · rw [hr5 3 (by decide), he5]; rfl
  · rw [hr6 3 (by decide), he6]; rfl

end WalkChain
